import Mathlib

/-!
Verification of the metrics pipeline of `scripts/expert_analytics.py`
(SciCode analytics dashboard).

Modelling conventions:
* Python strings are modelled as `List Char`.
* Python `str.strip()` / `str.lower()` are modelled by whitespace trimming and
  `Char.toLower` (which agrees with Python on the ASCII range).
* Timestamps (timezone-aware instants) are modelled as rational numbers of
  seconds; `pandas` `NaT` / `NaN` propagation is modelled with `Option`.
* Floating point arithmetic is modelled with `ℚ`.
* `pandas` dataframes are modelled as lists of records; a Python `set` is
  modelled as an insertion-ordered duplicate-free list (or a `Finset` where
  only the cardinality matters).
-/

abbrev Str := List Char

def str (s : String) : Str := s.data

/-- The ASCII whitespace characters stripped by Python `str.strip()`:
space, tab, newline, carriage return, vertical tab, form feed. -/
def isSpaceChar (c : Char) : Bool :=
  c.toNat = 32 || c.toNat = 9 || c.toNat = 10 || c.toNat = 13 || c.toNat = 11 || c.toNat = 12

/-- Left part of Python `str.strip()`: drop leading whitespace. -/
def trimLeft (s : Str) : Str := s.dropWhile isSpaceChar

/-- Right part of Python `str.strip()`: drop trailing whitespace. -/
def trimRight (s : Str) : Str := (s.reverse.dropWhile isSpaceChar).reverse

/-- Python `str.strip()`: trim whitespace from both ends. -/
def pyStrip (s : Str) : Str := trimRight (trimLeft s)

/-- Python `str.lower()` (`Char.toLower` agrees with it on ASCII letters). -/
def pyLower (s : Str) : Str := s.map Char.toLower

/-- Python `str.strip(q)` for a single strip character `q` (used for `.strip('"')`). -/
def pyStripChar (q : Char) (s : Str) : Str :=
  ((s.dropWhile (fun c => c == q)).reverse.dropWhile (fun c => c == q)).reverse

/-- Python `str.split(sep)` for a one-character separator: keeps empty fields,
`"".split(sep) == [""]`. -/
def splitOnChar (sep : Char) : Str → List Str
  | [] => [[]]
  | c :: rest =>
    if c = sep then [] :: splitOnChar sep rest
    else
      match splitOnChar sep rest with
      | [] => [[c]]
      | g :: gs => (c :: g) :: gs

/-- Numeric value of an ASCII digit. -/
def digitVal (c : Char) : Option Nat :=
  if 48 ≤ c.toNat ∧ c.toNat ≤ 57 then some (c.toNat - 48) else none

/-- Digits of a Python integer literal after the first one: further digits, with
single underscores allowed between digits. -/
def digitsCore (acc : Nat) : Str → Option Nat
  | [] => some acc
  | c :: rest =>
    if c = '_' then
      match rest with
      | [] => none
      | d :: rest2 =>
        match digitVal d with
        | some v => digitsCore (acc * 10 + v) rest2
        | none => none
    else
      match digitVal c with
      | some v => digitsCore (acc * 10 + v) rest
      | none => none

/-- Parse a nonempty unsigned Python decimal integer literal. -/
def pyIntNat : Str → Option Nat
  | [] => none
  | c :: rest =>
    match digitVal c with
    | some v => digitsCore v rest
    | none => none

/-- Python `int(s)` on a string: surrounding whitespace is ignored, an optional
sign is allowed, and the result is `none` when Python would raise `ValueError`. -/
def pyInt (s : Str) : Option Int :=
  match pyStrip s with
  | '+' :: rest => (pyIntNat rest).map (fun n => Int.ofNat n)
  | '-' :: rest => (pyIntNat rest).map (fun n => -Int.ofNat n)
  | t => (pyIntNat t).map (fun n => Int.ofNat n)

/-- `parse_time_to_hours`: convert an `"HH:MM"` string to decimal hours.
Missing minutes default to `0`; malformed input yields `0.0`
(the `except (ValueError, IndexError)` fallback). -/
def parse_time_to_hours (s : Str) : ℚ :=
  if s = [] then 0
  else
    match splitOnChar ':' s with
    | [] => 0
    | p0 :: rest =>
      match pyInt p0 with
      | none => 0
      | some h =>
        match rest with
        | [] => (h : ℚ)
        | p1 :: _ =>
          match pyInt p1 with
          | none => 0
          | some m => (h : ℚ) + (m : ℚ) / 60

/-- The `EXPERT_ALIASES` table: alias ↦ canonical name, in source order. -/
def EXPERT_ALIASES : List (Str × Str) := [
  (str "Totrakool Khongsap", str "Ta Khongsap"),
  (str "totrakool khongsap", str "Ta Khongsap"),
  (str "József Vass", str "Jozsef Vass"),
  (str "jozsef vass", str "Jozsef Vass"),
  (str "józsef vass", str "Jozsef Vass"),
  (str "Behzad Ansarinejad - Physics", str "Behzad"),
  (str "Behzad Ansarinejad", str "Behzad"),
  (str "behzad ansarinejad - physics", str "Behzad"),
  (str "behzad ansarinejad", str "Behzad")]

/-- The `EXCLUDED_FROM_AHT` list (admins/managers excluded from AHT hours). -/
def EXCLUDED_FROM_AHT : List Str := [str "Mahir Bansal"]

/-- `normalize_expert_name`: exact alias match first, then a case-insensitive
whitespace-trimmed match over the alias table in order, else the trimmed input. -/
def normalize_expert_name (name : Str) : Str :=
  if name = [] then name
  else
    match (EXPERT_ALIASES.find? (fun p => p.1 == name)).map Prod.snd with
    | some canonical => canonical
    | none =>
      match (EXPERT_ALIASES.find? (fun p => pyLower p.1 == pyStrip (pyLower name))).map Prod.snd with
      | some canonical => canonical
      | none => pyStrip name

/-- pandas `Series.unique()`: distinct values in order of first appearance. -/
def dedupFirst {α : Type} [DecidableEq α] : List α → List α
  | [] => []
  | a :: rest => a :: dedupFirst (rest.filter (fun b => b != a))
termination_by l => l.length
decreasing_by
  simp only [List.length_cons]
  exact Nat.lt_succ_of_le (List.length_filter_le _ rest)

/-- An element of an Airtable relation list: either a user object (a dict with
name and email) or a bare value that the script renders with `str(...)`. -/
inductive RawEntry where
  | usr (name : Str) (email : Str)
  | txt (s : Str)
deriving DecidableEq, Repr

/-- The `fields` of one raw Airtable record, as read by `fetch_airtable_tasks`.
Timestamp fields hold the result of `pd.to_datetime(..., errors='coerce',
utc=True)`: an instant in rational seconds, `none` for absent or unparseable. -/
structure RawRecord where
  record_id : Str
  task_id : Nat
  title : Str
  task_status : Str
  expert_user : List RawEntry
  expert_reviewer_user : List RawEntry
  reviews_reviewer_users : List RawEntry
  time_claimed : Option ℚ
  time_in_progress : Option ℚ
  time_ready_for_review : Option ℚ
  time_first_ready_for_review : Option ℚ
  time_merged : Option ℚ
  reviews_count : Nat
  reviews_approved_count : Nat
  reviews_sent_back_count : Nat
deriving DecidableEq, Repr

/-- One row of the tasks dataframe built by `fetch_airtable_tasks`, including
the columns later added in place by `calculate_cycle_times`. -/
structure TaskRow where
  record_id : Str
  task_id : Nat
  title : Str
  task_status : Str
  expert_name : Str
  expert_email : Str
  reviewer_name : Str
  reviewer_emails : List Str
  unique_reviewers : Nat
  time_claimed : Option ℚ
  time_in_progress : Option ℚ
  time_ready_for_review : Option ℚ
  time_first_ready_for_review : Option ℚ
  time_merged : Option ℚ
  reviews_count : Nat
  reviews_approved_count : Nat
  reviews_sent_back_count : Nat
  hours_claimed_to_review : Option ℚ := none
  hours_review_to_merged : Option ℚ := none
  hours_total_cycle : Option ℚ := none
  is_first_task : Bool := false
deriving DecidableEq, Repr

/-- Extract `(expert_name, expert_email)` from the `expert__user` relation:
first element's display name (normalized) and lower-cased email; an absent
relation yields empty strings. -/
def extractExpert : List RawEntry → Str × Str
  | [] => ([], [])
  | .usr n e :: _ => (normalize_expert_name n, pyLower e)
  | .txt s :: _ => (normalize_expert_name s, [])

/-- Extract the primary reviewer name from `expert_reviewer__user`. -/
def extractReviewer : List RawEntry → Str
  | [] => []
  | .usr n _ :: _ => normalize_expert_name n
  | .txt s :: _ => normalize_expert_name s

/-- `set.add`: append to a Python-set-as-ordered-list when not yet present. -/
def insertNew (acc : List Str) (e : Str) : List Str :=
  if e ∈ acc then acc else acc ++ [e]

/-- `unique_reviewer_emails` for one task, from `reviews__reviewer_users`:
lower-cased emails of the dict entries, skipping empty emails and the author's
own email. -/
def uniqueReviewerEmails (entries : List RawEntry) (expertEmail : Str) : List Str :=
  entries.foldl (fun acc r =>
    match r with
    | .usr _ e =>
      let el := pyLower e
      if el ≠ [] ∧ el ≠ expertEmail then insertNew acc el else acc
    | .txt _ => acc) []

/-- The lower-cased email of a dict entry of the reviewer relation. -/
def entryEmail : RawEntry → Option Str
  | .usr _ e => some (pyLower e)
  | .txt _ => none

/-- Parse one raw record into a task row (the `parsed.append({...})` step). -/
def parseRecord (r : RawRecord) : TaskRow :=
  let ex := extractExpert r.expert_user
  let emails := uniqueReviewerEmails r.reviews_reviewer_users ex.2
  { record_id := r.record_id
    task_id := r.task_id
    title := r.title
    task_status := r.task_status
    expert_name := ex.1
    expert_email := ex.2
    reviewer_name := extractReviewer r.expert_reviewer_user
    reviewer_emails := emails
    unique_reviewers := emails.length
    time_claimed := r.time_claimed
    time_in_progress := r.time_in_progress
    time_ready_for_review := r.time_ready_for_review
    time_first_ready_for_review := r.time_first_ready_for_review
    time_merged := r.time_merged
    reviews_count := r.reviews_count
    reviews_approved_count := r.reviews_approved_count
    reviews_sent_back_count := r.reviews_sent_back_count }

/-- One page of the remote API as seen by the fetch loop: a successful response
(records plus optional continuation offset) or a request failure. -/
inductive PageResp where
  | ok (records : List RawRecord) (offset : Option Str)
  | fail (msg : Str)
deriving DecidableEq

/-- The pagination loop of `fetch_airtable_tasks`: follow offsets until a
response carries none, or a request fails; a failure surfaces the error message
(`st.error`) and breaks, keeping the records accumulated so far. -/
def fetchPages : List PageResp → List RawRecord × Option Str
  | [] => ([], none)
  | .ok recs off :: rest =>
    match off with
    | none => (recs, none)
    | some _ =>
      let r := fetchPages rest
      (recs ++ r.1, r.2)
  | .fail msg :: _ => ([], some msg)

/-- Difference of two optional instants (seconds) in hours:
`(b - a).dt.total_seconds() / 3600`, with `NaT` propagating to `none`. -/
def subHours (b a : Option ℚ) : Option ℚ :=
  match b, a with
  | some bv, some av => some ((bv - av) / 3600)
  | _, _ => none

/-- `df.loc[df[col] < 0, col] = None` (`NaN < 0` is false, so `none` stays). -/
def maskNeg (d : Option ℚ) : Option ℚ :=
  match d with
  | some v => if v < 0 then none else some v
  | none => none

/-- `df.loc[df[col] > 720, col] = None` (cap at 30 days). -/
def maskBig (d : Option ℚ) : Option ℚ :=
  match d with
  | some v => if 720 < v then none else some v
  | none => none

/-- Both sanity masks, applied in source order. -/
def sanitize (d : Option ℚ) : Option ℚ := maskBig (maskNeg d)

/-- Single-pass statement of the sanity filter, as the spec words it:
a negative duration or one above 720 hours is discarded, others kept. -/
def sanitizeSpec (d : Option ℚ) : Option ℚ :=
  match d with
  | some v => if v < 0 ∨ 720 < v then none else some v
  | none => none

/-- The three duration columns of `calculate_cycle_times`, with sanity masks. -/
def computeDurations (t : TaskRow) : TaskRow :=
  { t with
    hours_claimed_to_review := sanitize (subHours t.time_ready_for_review t.time_claimed)
    hours_review_to_merged := sanitize (subHours t.time_merged t.time_ready_for_review)
    hours_total_cycle := sanitize (subHours t.time_merged t.time_claimed) }

/-- `df['is_first_task'] = False`. -/
def clearFlags (ts : List TaskRow) : List TaskRow :=
  ts.map (fun t => { t with is_first_task := false })

/-- Rows `(index, time_claimed)` of the tasks of author `a`, indices from `i`. -/
def claimedRows (i : Nat) (ts : List TaskRow) (a : Str) : List (Nat × Option ℚ) :=
  match ts with
  | [] => []
  | t :: rest =>
    if t.expert_name = a then (i, t.time_claimed) :: claimedRows (i + 1) rest a
    else claimedRows (i + 1) rest a

/-- pandas `Series.idxmin` over `(label, value)` rows: label of the least
non-`NaN` value, first occurrence winning ties; `none` when no value exists. -/
def argminClaimed : List (Nat × Option ℚ) → Option (Nat × ℚ)
  | [] => none
  | (_, none) :: rest => argminClaimed rest
  | (i, some v) :: rest =>
    match argminClaimed rest with
    | none => some (i, v)
    | some (j, w) => if v ≤ w then some (i, v) else some (j, w)

/-- `expert_tasks['time_claimed'].idxmin()` for the author group of `a`
(also covering the emptiness / `notna().any()` guard: `none` when it fails). -/
def firstIdx (ts : List TaskRow) (a : Str) : Option Nat :=
  (argminClaimed (claimedRows 0 ts a)).map Prod.fst

/-- `df.loc[idx, 'is_first_task'] = True` at positional label `i`. -/
def setFlagAt : List TaskRow → Nat → List TaskRow
  | [], _ => []
  | t :: ts, 0 => { t with is_first_task := true } :: ts
  | t :: ts, n + 1 => t :: setFlagAt ts n

/-- One iteration of the first-task loop, for one author group. -/
def flagStep (ts : List TaskRow) (a : Str) : List TaskRow :=
  match firstIdx ts a with
  | some i => setFlagAt ts i
  | none => ts

/-- The first-task loop over `df['expert_name'].dropna().unique()` (the
expert-name cells are always strings here, so `dropna` removes nothing). -/
def markFirstTasks (ts : List TaskRow) : List TaskRow :=
  (dedupFirst (ts.map TaskRow.expert_name)).foldl flagStep ts

/-- `calculate_cycle_times`: duration columns, sanity masks, first-task flags. -/
def calculate_cycle_times (ts : List TaskRow) : List TaskRow :=
  markFirstTasks (clearFlags (ts.map computeDurations))

/-- The written statuses: a task that has left drafting at least once. -/
def writtenStatuses : List Str :=
  [str "Ready for Review", str "Revising", str "Approved", str "Merged"]

/-- `hours_logged` of one expert from the aggregated time-log table. -/
def hoursLogged (timeLogs : List (Str × ℚ)) (e : Str) : ℚ :=
  ((timeLogs.filter (fun r => r.1 == e)).map Prod.snd).sum

/-- `tasks_written` of one expert: their tasks in a written status. -/
def tasksWritten (tasks : List TaskRow) (e : Str) : Nat :=
  ((tasks.filter (fun t => t.expert_name == e)).filter
    (fun t => decide (t.task_status ∈ writtenStatuses))).length

/-- `tasks_merged` of one expert. -/
def tasksMerged (tasks : List TaskRow) (e : Str) : Nat :=
  ((tasks.filter (fun t => t.expert_name == e)).filter
    (fun t => t.task_status == str "Merged")).length

/-- `reviews_done` of one expert: merged tasks where they are primary reviewer. -/
def reviewsDone (tasks : List TaskRow) (e : Str) : Nat :=
  ((tasks.filter (fun t => t.reviewer_name == e)).filter
    (fun t => t.task_status == str "Merged")).length

/-- `writer_aht = hours_logged / tasks_written if tasks_written > 0 else None`. -/
def writer_aht (timeLogs : List (Str × ℚ)) (tasks : List TaskRow) (e : Str) : Option ℚ :=
  if 0 < tasksWritten tasks e then
    some (hoursLogged timeLogs e / (tasksWritten tasks e : ℚ))
  else none

/-- `reviewer_aht = hours_logged / reviews_done if reviews_done > 0 else None`. -/
def reviewer_aht (timeLogs : List (Str × ℚ)) (tasks : List TaskRow) (e : Str) : Option ℚ :=
  if 0 < reviewsDone tasks e then
    some (hoursLogged timeLogs e / (reviewsDone tasks e : ℚ))
  else none

/-- `overall_aht_expert = hours_logged / tasks_merged if tasks_merged > 0 else None`. -/
def overall_aht_expert (timeLogs : List (Str × ℚ)) (tasks : List TaskRow) (e : Str) : Option ℚ :=
  if 0 < tasksMerged tasks e then
    some (hoursLogged timeLogs e / (tasksMerged tasks e : ℚ))
  else none

/-- One row of a qualifying time-log CSV, i.e. one whose file was readable and
whose (stripped) headers include both `Employee Name` and `Total Time [h]`;
unreadable or non-qualifying sources are dropped before this point. -/
structure TimeRow where
  employee_name_raw : Str
  total_time : Str
deriving DecidableEq, Repr

/-- The per-row transformation of `load_time_logs`: the name is stripped,
quote-stripped and normalized; the duration string is parsed to hours. -/
def timeLogRow (r : TimeRow) : Str × ℚ :=
  (normalize_expert_name (pyStripChar '"' (pyStrip r.employee_name_raw)),
   parse_time_to_hours r.total_time)

/-- `pd.concat` of the per-source frames. -/
def combinedRows (sources : List (List TimeRow)) : List (Str × ℚ) :=
  (sources.map (fun s => s.map timeLogRow)).flatten

/-- `groupby('employee_name').sum()`, keys listed by first appearance. -/
def groupSum (rows : List (Str × ℚ)) : List (Str × ℚ) :=
  (dedupFirst (rows.map Prod.fst)).map
    (fun k => (k, ((rows.filter (fun r => r.1 == k)).map Prod.snd).sum))

/-- `load_time_logs`: pool the sources, normalize and parse each row,
aggregate per worker, sort by hours descending. -/
def load_time_logs (sources : List (List TimeRow)) : List (Str × ℚ) :=
  List.insertionSort (fun a b => b.2 ≤ a.2) (groupSum (combinedRows sources))

/-- `total_hours_for_aht`: summed hours of the aggregated rows whose worker is
not in `EXCLUDED_FROM_AHT`. -/
def total_hours_for_aht (sources : List (List TimeRow)) : ℚ :=
  (((load_time_logs sources).filter
      (fun r => decide (r.1 ∉ EXCLUDED_FROM_AHT))).map Prod.snd).sum

/-- `written_tasks` count over all tasks. -/
def writtenCount (tasks : List TaskRow) : Nat :=
  (tasks.filter (fun t => decide (t.task_status ∈ writtenStatuses))).length

/-- `merged_tasks` count over all tasks. -/
def mergedCount (tasks : List TaskRow) : Nat :=
  (tasks.filter (fun t => t.task_status == str "Merged")).length

/-- `all_reviewer_emails`: the set union of every task's reviewer-email list. -/
def allReviewerEmails (tasks : List TaskRow) : Finset Str :=
  tasks.foldl (fun s t => s ∪ t.reviewer_emails.toFinset) ∅

/-- `total_unique_reviews`. -/
def totalUniqueReviews (tasks : List TaskRow) : Nat := (allReviewerEmails tasks).card

/-- `writer_aht_overall = total_hours_for_aht / written_tasks if written_tasks > 0 else None`
(with no tasks the code sets `written_tasks = 0`, which this also covers). -/
def writer_aht_overall (sources : List (List TimeRow)) (tasks : List TaskRow) : Option ℚ :=
  if 0 < writtenCount tasks then
    some (total_hours_for_aht sources / (writtenCount tasks : ℚ))
  else none

/-- `reviewer_aht_overall`, denominator `total_unique_reviews`. -/
def reviewer_aht_overall (sources : List (List TimeRow)) (tasks : List TaskRow) : Option ℚ :=
  if 0 < totalUniqueReviews tasks then
    some (total_hours_for_aht sources / (totalUniqueReviews tasks : ℚ))
  else none

/-- `overall_aht`, denominator `merged_tasks`. -/
def overall_aht (sources : List (List TimeRow)) (tasks : List TaskRow) : Option ℚ :=
  if 0 < mergedCount tasks then
    some (total_hours_for_aht sources / (mergedCount tasks : ℚ))
  else none

/-- Spec formula for the AHT hours: the summed hours of every pooled time-log
row whose normalized worker is not excluded. -/
def specAhtHours (sources : List (List TimeRow)) : ℚ :=
  (((combinedRows sources).filter
      (fun r => decide (r.1 ∉ EXCLUDED_FROM_AHT))).map Prod.snd).sum

/-- Spec formula: number of distinct reviewer emails across all tasks. -/
def specDistinctReviewerCount (tasks : List TaskRow) : Nat :=
  ((tasks.map TaskRow.reviewer_emails).flatten).dedup.length

/-- Spec formula for one task's reviewer set: the distinct lower-cased,
non-empty reviewer emails of the review actions, the author's excluded. -/
def specTaskReviewerEmails (entries : List RawEntry) (expertEmail : Str) : List Str :=
  ((entries.filterMap entryEmail).filter
    (fun e => decide (e ≠ [] ∧ e ≠ expertEmail))).dedup

/-- Set the first-task flag of a row when `b` is true (leave it when false). -/
def orFlag (b : Bool) (t : TaskRow) : TaskRow :=
  { t with is_first_task := t.is_first_task || b }

/-- A task row with the given author, claim/ready/merge instants and status,
all other fields empty; used for concrete instances. -/
def mkTask (name : Str) (status : Str) (c r m : Option ℚ) : TaskRow :=
  { record_id := []
    task_id := 0
    title := []
    task_status := status
    expert_name := name
    expert_email := []
    reviewer_name := []
    reviewer_emails := []
    unique_reviewers := 0
    time_claimed := c
    time_in_progress := none
    time_ready_for_review := r
    time_first_ready_for_review := none
    time_merged := m
    reviews_count := 0
    reviews_approved_count := 0
    reviews_sent_back_count := 0 }

/-- A raw record with the given author relation, review actions and claim
instant, all other fields empty; used for concrete instances. -/
def mkRecord (author : List RawEntry) (reviewers : List RawEntry)
    (c : Option ℚ) : RawRecord :=
  { record_id := []
    task_id := 0
    title := []
    task_status := []
    expert_user := author
    expert_reviewer_user := []
    reviews_reviewer_users := reviewers
    time_claimed := c
    time_in_progress := none
    time_ready_for_review := none
    time_first_ready_for_review := none
    time_merged := none
    reviews_count := 0
    reviews_approved_count := 0
    reviews_sent_back_count := 0 }

/-! ## Helper lemmas -/

theorem orFlag_false (t : TaskRow) : orFlag false t = t := by
  simp [orFlag]

theorem orFlag_true (t : TaskRow) : orFlag true t = { t with is_first_task := true } := by
  simp [orFlag]

theorem sanitize_eq_sanitizeSpec (d : Option ℚ) : sanitize d = sanitizeSpec d := by
  cases d with
  | none => rfl
  | some v =>
    simp only [sanitize, sanitizeSpec, maskNeg, maskBig]
    by_cases h1 : v < 0
    · simp [h1]
    · by_cases h2 : 720 < v
      · simp [h1, h2]
      · simp [h1, h2]

theorem setFlagAt_getElem? (ts : List TaskRow) (i j : Nat) :
    (setFlagAt ts i)[j]? =
      if j = i then ts[j]?.map (fun t => { t with is_first_task := true })
      else ts[j]? := by
  induction ts generalizing i j with
  | nil => cases i <;> simp [setFlagAt]
  | cons t ts ih =>
    cases i with
    | zero =>
      cases j with
      | zero => simp [setFlagAt]
      | succ j => simp [setFlagAt]
    | succ i =>
      cases j with
      | zero => simp [setFlagAt]
      | succ j => simpa [setFlagAt, Nat.succ_inj] using ih i j

theorem claimedRows_setFlagAt (ts : List TaskRow) (k i : Nat) (a : Str) :
    claimedRows i (setFlagAt ts k) a = claimedRows i ts a := by
  induction ts generalizing i k with
  | nil => cases k <;> rfl
  | cons t ts ih =>
    cases k with
    | zero => simp only [setFlagAt, claimedRows]
    | succ k => simp only [setFlagAt, claimedRows]; rw [ih]

theorem firstIdx_setFlagAt (ts : List TaskRow) (k : Nat) (a : Str) :
    firstIdx (setFlagAt ts k) a = firstIdx ts a := by
  simp [firstIdx, claimedRows_setFlagAt]

theorem firstIdx_flagStep (ts : List TaskRow) (b a : Str) :
    firstIdx (flagStep ts b) a = firstIdx ts a := by
  unfold flagStep
  cases h : firstIdx ts b with
  | none => rfl
  | some i => simp [firstIdx_setFlagAt]

theorem flagStep_getElem? (ts : List TaskRow) (a : Str) (j : Nat) :
    (flagStep ts a)[j]? = ts[j]?.map (orFlag (firstIdx ts a == some j)) := by
  unfold flagStep
  cases h : firstIdx ts a with
  | none =>
    have hb : ((none : Option Nat) == some j) = false := rfl
    rw [hb]
    cases hj : ts[j]? <;> simp [hj, orFlag_false]
  | some i =>
    rw [setFlagAt_getElem?]
    by_cases hj : j = i
    · subst hj
      have hb : (some j == some j) = true := by simp
      rw [hb]
      cases hj2 : ts[j]? <;> simp [hj2, orFlag_true]
    · have hb : (some i == some j) = false := by
        simp only [beq_eq_false_iff_ne, ne_eq, Option.some.injEq]
        exact fun h2 => hj h2.symm
      rw [hb, if_neg hj]
      cases hj2 : ts[j]? <;> simp [hj2, orFlag_false]

theorem foldl_flagStep_getElem? (as : List Str) (ts : List TaskRow) (j : Nat) :
    (as.foldl flagStep ts)[j]? =
      ts[j]?.map (orFlag (as.any (fun a => firstIdx ts a == some j))) := by
  induction as generalizing ts with
  | nil =>
    simp only [List.foldl_nil, List.any_nil]
    cases h : ts[j]? <;> simp [h, orFlag_false]
  | cons a as ih =>
    rw [List.foldl_cons, ih]
    have hfs : (fun b => firstIdx (flagStep ts a) b == some j)
        = (fun b => firstIdx ts b == some j) := by
      funext b; rw [firstIdx_flagStep]
    rw [hfs, flagStep_getElem?]
    cases h : ts[j]? with
    | none => rfl
    | some t => simp [orFlag, Bool.or_assoc, List.any_cons]

theorem markFirstTasks_getElem? (ts : List TaskRow) (j : Nat) :
    (markFirstTasks ts)[j]? =
      ts[j]?.map (orFlag ((dedupFirst (ts.map TaskRow.expert_name)).any
        (fun a => firstIdx ts a == some j))) :=
  foldl_flagStep_getElem? _ ts j

theorem calculate_cycle_times_getElem? (ts : List TaskRow) (j : Nat) :
    (calculate_cycle_times ts)[j]? =
      ((clearFlags (ts.map computeDurations))[j]?).map
        (orFlag ((dedupFirst ((clearFlags (ts.map computeDurations)).map TaskRow.expert_name)).any
          (fun a => firstIdx (clearFlags (ts.map computeDurations)) a == some j))) :=
  markFirstTasks_getElem? _ j

theorem clearFlags_getElem? (ts : List TaskRow) (j : Nat) :
    (clearFlags ts)[j]? = ts[j]?.map (fun t => { t with is_first_task := false }) := by
  simp [clearFlags]

theorem uniqueReviewerEmails_foldl (entries : List RawEntry) (ee : Str) (acc : List Str) :
    entries.foldl (fun acc r =>
      match r with
      | .usr _ e =>
        let el := pyLower e
        if el ≠ [] ∧ el ≠ ee then insertNew acc el else acc
      | .txt _ => acc) acc
    = ((entries.filterMap entryEmail).filter
        (fun e => decide (e ≠ [] ∧ e ≠ ee))).foldl insertNew acc := by
  induction entries generalizing acc with
  | nil => rfl
  | cons r rs ih =>
    cases r with
    | txt s =>
      simpa [entryEmail] using ih acc
    | usr n e =>
      simp only [List.foldl_cons, List.filterMap_cons, entryEmail]
      by_cases h : pyLower e ≠ [] ∧ pyLower e ≠ ee
      · simp only [if_pos h, List.filter_cons, decide_eq_true h, List.foldl_cons]
        exact ih _
      · simp only [if_neg h, List.filter_cons, decide_eq_false h]
        exact ih _

theorem foldl_insertNew_toFinset (L : List Str) (acc : List Str) :
    (L.foldl insertNew acc).toFinset = acc.toFinset ∪ L.toFinset := by
  induction L generalizing acc with
  | nil => simp
  | cons e L ih =>
    simp only [List.foldl_cons, ih, List.toFinset_cons]
    unfold insertNew
    by_cases h : e ∈ acc
    · rw [if_pos h]
      ext x
      simp only [Finset.mem_union, List.mem_toFinset, Finset.mem_insert]
      constructor
      · rintro (hx | hx)
        · exact Or.inl hx
        · exact Or.inr (Or.inr hx)
      · rintro (hx | rfl | hx)
        · exact Or.inl hx
        · exact Or.inl h
        · exact Or.inr hx
    · rw [if_neg h]
      ext x
      simp only [Finset.mem_union, List.mem_toFinset, Finset.mem_insert,
        List.mem_append, List.mem_singleton]
      tauto

theorem foldl_insertNew_nodup (L : List Str) (acc : List Str) (h : acc.Nodup) :
    (L.foldl insertNew acc).Nodup := by
  induction L generalizing acc with
  | nil => exact h
  | cons e L ih =>
    apply ih
    unfold insertNew
    by_cases he : e ∈ acc
    · rwa [if_pos he]
    · rw [if_neg he]
      simp [List.nodup_append, h, he]

theorem foldl_insertNew_length (L : List Str) :
    (L.foldl insertNew []).length = L.dedup.length := by
  have h1 : (L.foldl insertNew []).toFinset.card = (L.foldl insertNew []).length :=
    List.toFinset_card_of_nodup (foldl_insertNew_nodup L [] (by simp))
  rw [← h1, foldl_insertNew_toFinset]
  simp [List.card_toFinset]

theorem mem_of_mem_trimLeft {c : Char} {s : Str} (h : c ∈ trimLeft s) : c ∈ s :=
  (List.dropWhile_sublist _).mem h

theorem mem_of_mem_trimRight {c : Char} {s : Str} (h : c ∈ trimRight s) : c ∈ s := by
  unfold trimRight at h
  rw [List.mem_reverse] at h
  exact List.mem_reverse.mp ((List.dropWhile_sublist _).mem h)

theorem mem_of_mem_pyStrip {c : Char} {s : Str} (h : c ∈ pyStrip s) : c ∈ s :=
  mem_of_mem_trimLeft (mem_of_mem_trimRight h)

theorem mem_of_mem_splitOnChar {sep c : Char} {s p : Str}
    (hp : p ∈ splitOnChar sep s) (hc : c ∈ p) : c ∈ s := by
  induction s generalizing p with
  | nil =>
    simp only [splitOnChar, List.mem_singleton] at hp
    subst hp
    exact absurd hc (List.not_mem_nil c)
  | cons a rest ih =>
    by_cases ha : a = sep
    · rw [splitOnChar, if_pos ha] at hp
      rcases List.mem_cons.mp hp with h1 | h1
      · subst h1; exact absurd hc (List.not_mem_nil c)
      · exact List.mem_cons_of_mem a (ih h1 hc)
    · rw [splitOnChar, if_neg ha] at hp
      cases hsp : splitOnChar sep rest with
      | nil =>
        rw [hsp] at hp
        simp only [List.mem_singleton] at hp
        subst hp
        rcases List.mem_singleton.mp hc with rfl
        exact List.mem_cons_self _ _
      | cons g gs =>
        rw [hsp] at hp
        rcases List.mem_cons.mp hp with h1 | h1
        · subst h1
          rcases List.mem_cons.mp hc with rfl | h2
          · exact List.mem_cons_self _ _
          · exact List.mem_cons_of_mem a (ih (hsp ▸ List.mem_cons_self g gs) h2)
        · exact List.mem_cons_of_mem a (ih (hsp ▸ List.mem_cons_of_mem g h1) hc)

theorem pyInt_nonneg {s : Str} (hs : '-' ∉ s) {n : Int} (h : pyInt s = some n) : 0 ≤ n := by
  unfold pyInt at h
  split at h
  · rcases Option.map_eq_some'.mp h with ⟨m, hm, hc2⟩
    exact hc2 ▸ Int.ofNat_nonneg m
  · rename_i rest heq
    exact absurd (mem_of_mem_pyStrip (heq ▸ List.mem_cons_self '-' rest)) hs
  · rcases Option.map_eq_some'.mp h with ⟨m, hm, hc2⟩
    exact hc2 ▸ Int.ofNat_nonneg m

/-! ## Claims -/

/-- C8: duration parsing of "HOURS:MINUTES" strings: `parse("2:30") = 2.5`,
`parse("") = 0.0`, `parse("garbage") = 0.0`, `parse("10") = 10.0` (minutes
default to 0 when the colon part is absent); malformed or empty input yields
`0.0` rather than an error. -/
theorem C8_parse_time_examples :
    parse_time_to_hours (str "2:30") = 5/2 ∧
    parse_time_to_hours (str "") = 0 ∧
    parse_time_to_hours (str "garbage") = 0 ∧
    parse_time_to_hours (str "10") = 10 := by
  refine ⟨?_, rfl, rfl, ?_⟩
  · show ((2 : Int) : ℚ) + ((30 : Int) : ℚ) / 60 = 5/2
    norm_num
  · show ((10 : Int) : ℚ) = 10
    norm_num

/-- C5: each per-worker AHT ratio (`writer_aht`, `reviewer_aht`,
`overall_aht_expert`) is `none` exactly when its denominator is `0` — never an
error, `0`, or infinity; in particular a worker with 5 logged hours and no
written task has `writer_aht = none`. -/
theorem C5_aht_none_iff_zero_denominator :
    (∀ (timeLogs : List (Str × ℚ)) (tasks : List TaskRow) (e : Str),
      (writer_aht timeLogs tasks e = none ↔ tasksWritten tasks e = 0) ∧
      (reviewer_aht timeLogs tasks e = none ↔ reviewsDone tasks e = 0) ∧
      (overall_aht_expert timeLogs tasks e = none ↔ tasksMerged tasks e = 0)) ∧
    writer_aht [(str "W", 5)] [] (str "W") = none := by
  constructor
  · intro timeLogs tasks e
    refine ⟨?_, ?_, ?_⟩
    · unfold writer_aht
      split <;> rename_i h <;> simp <;> omega
    · unfold reviewer_aht
      split <;> rename_i h <;> simp <;> omega
    · unfold overall_aht_expert
      split <;> rename_i h <;> simp <;> omega
  · rfl

/-- C6: in the pagination loop, a request failure on any page stops pagination,
surfaces the error to the caller, and the records of all pages fetched before
the failure are still returned — already-fetched pages are never dropped. -/
theorem C6_partial_results_on_failure
    (goods : List (List RawRecord × Str)) (msg : Str) (rest : List PageResp) :
    fetchPages (goods.map (fun g => PageResp.ok g.1 (some g.2)) ++ PageResp.fail msg :: rest)
      = ((goods.map Prod.fst).flatten, some msg) := by
  induction goods with
  | nil => rfl
  | cons g gs ih => simp [fetchPages, ih]

/-- C1: the sanity filter acts independently on each of the three derived
durations: a negative value becomes no-value, a value above 720 hours becomes
no-value, and a non-negative value of at most 720 hours is kept; in particular
a task claimed at `T` and merged at `T - 1` hour has `hours_total_cycle = none`,
and a task spanning 800 hours has `none` rather than 800. -/
theorem C1_sanity_filter :
    (∀ (ts : List TaskRow) (j : Nat) (t : TaskRow),
      (calculate_cycle_times ts)[j]? = some t →
      ∃ t0, ts[j]? = some t0 ∧
        t.hours_claimed_to_review
          = sanitizeSpec (subHours t0.time_ready_for_review t0.time_claimed) ∧
        t.hours_review_to_merged
          = sanitizeSpec (subHours t0.time_merged t0.time_ready_for_review) ∧
        t.hours_total_cycle
          = sanitizeSpec (subHours t0.time_merged t0.time_claimed)) ∧
    (∀ T : ℚ, ∃ t,
      (calculate_cycle_times [mkTask [] [] (some T) none (some (T - 3600))])[0]? = some t ∧
      t.hours_total_cycle = none) ∧
    (∀ T : ℚ, ∃ t,
      (calculate_cycle_times [mkTask [] [] (some T) none (some (T + 800 * 3600))])[0]? = some t ∧
      t.hours_total_cycle = none) := by
  have hmain : ∀ (ts : List TaskRow) (j : Nat) (t : TaskRow),
      (calculate_cycle_times ts)[j]? = some t →
      ∃ t0, ts[j]? = some t0 ∧
        t.hours_claimed_to_review
          = sanitizeSpec (subHours t0.time_ready_for_review t0.time_claimed) ∧
        t.hours_review_to_merged
          = sanitizeSpec (subHours t0.time_merged t0.time_ready_for_review) ∧
        t.hours_total_cycle
          = sanitizeSpec (subHours t0.time_merged t0.time_claimed) := by
    intro ts j t ht
    rw [calculate_cycle_times_getElem?, clearFlags_getElem?, List.getElem?_map] at ht
    cases h0 : ts[j]? with
    | none => rw [h0] at ht; exact absurd ht (by simp)
    | some t0 =>
      rw [h0] at ht
      simp only [Option.map_some'] at ht
      have ht' := Option.some_inj.mp ht
      refine ⟨t0, rfl, ?_, ?_, ?_⟩ <;>
        · rw [← ht']
          simp [orFlag, computeDurations, sanitize_eq_sanitizeSpec]
  refine ⟨hmain, ?_, ?_⟩
  · intro T
    cases hres : (calculate_cycle_times [mkTask [] [] (some T) none (some (T - 3600))])[0]? with
    | none =>
      rw [calculate_cycle_times_getElem?, clearFlags_getElem?, List.getElem?_map] at hres
      simp at hres
    | some t =>
      refine ⟨t, rfl, ?_⟩
      obtain ⟨t0, h0, _, _, h3⟩ := hmain _ 0 t hres
      simp only [List.getElem?_cons_zero, Option.some_inj] at h0
      subst h0
      rw [h3]
      show sanitizeSpec (subHours (some (T - 3600)) (some T)) = none
      have : (T - 3600 - T) / 3600 = (-1 : ℚ) := by ring
      simp [subHours, sanitizeSpec, this]
  · intro T
    cases hres : (calculate_cycle_times [mkTask [] [] (some T) none (some (T + 800 * 3600))])[0]? with
    | none =>
      rw [calculate_cycle_times_getElem?, clearFlags_getElem?, List.getElem?_map] at hres
      simp at hres
    | some t =>
      refine ⟨t, rfl, ?_⟩
      obtain ⟨t0, h0, _, _, h3⟩ := hmain _ 0 t hres
      simp only [List.getElem?_cons_zero, Option.some_inj] at h0
      subst h0
      rw [h3]
      show sanitizeSpec (subHours (some (T + 800 * 3600)) (some T)) = none
      have : (T + 800 * 3600 - T) / 3600 = (800 : ℚ) := by ring
      simp [subHours, sanitizeSpec, this]
      norm_num

/-- C3: for every record, `unique_reviewers` equals the number of distinct
lower-cased non-empty reviewer emails of the task's review actions, the
author's own email excluded; review-action emails `[a@x, b@x, a@x, author@x]`
with author email `author@x` give `unique_reviewers = 2`. -/
theorem C3_unique_reviewers :
    (∀ r : RawRecord,
      (parseRecord r).unique_reviewers
        = (specTaskReviewerEmails r.reviews_reviewer_users
            (extractExpert r.expert_user).2).length) ∧
    (parseRecord (mkRecord [RawEntry.usr (str "Author") (str "author@x")]
        [RawEntry.usr (str "RA") (str "a@x"), RawEntry.usr (str "RB") (str "b@x"),
         RawEntry.usr (str "RA") (str "a@x"),
         RawEntry.usr (str "Author") (str "author@x")] none)).unique_reviewers = 2 := by
  constructor
  · intro r
    show (uniqueReviewerEmails r.reviews_reviewer_users (extractExpert r.expert_user).2).length
      = _
    unfold uniqueReviewerEmails specTaskReviewerEmails
    rw [uniqueReviewerEmails_foldl]
    exact foldl_insertNew_length _
  · decide

/-- C4 as stated is false: `parse_time_to_hours` can return a negative value,
since Python `int` accepts a sign; `"-5:30"` parses to `-4.5`. -/
theorem C4_counterexample : parse_time_to_hours (str "-5:30") < 0 := by
  have h : parse_time_to_hours (str "-5:30")
      = ((-Int.ofNat 5 : Int) : ℚ) + ((Int.ofNat 30 : Int) : ℚ) / 60 := rfl
  rw [h]
  norm_num

/-- C4 amended: the parser is non-negative on every input string that contains
no minus sign (so on all well-formed `"HH:MM"` duration cells), and the
per-worker aggregated hours totals over such rows are all non-negative; an
input with a negative component, such as `"-5:30"`, does yield a negative
value. -/
theorem C4_amended_nonneg_without_minus :
    (∀ s : Str, '-' ∉ s → 0 ≤ parse_time_to_hours s) ∧
    (∀ sources : List (List TimeRow),
      (∀ src ∈ sources, ∀ row ∈ src, '-' ∉ row.total_time) →
      ∀ p ∈ load_time_logs sources, 0 ≤ p.2) := by
  have hparse : ∀ s : Str, '-' ∉ s → 0 ≤ parse_time_to_hours s := by
    intro s hs
    unfold parse_time_to_hours
    by_cases hnil : s = []
    · simp [hnil]
    · rw [if_neg hnil]
      cases hsp : splitOnChar ':' s with
      | nil => exact le_refl 0
      | cons p0 rest =>
        have hp0 : '-' ∉ p0 :=
          fun hc => hs (mem_of_mem_splitOnChar (hsp ▸ List.mem_cons_self p0 rest) hc)
        cases hint : pyInt p0 with
        | none => simp [hint]
        | some hv =>
          have hhn : (0 : ℚ) ≤ (hv : ℚ) := by
            exact_mod_cast pyInt_nonneg hp0 hint
          cases rest with
          | nil => simpa [hint] using hhn
          | cons p1 rtail =>
            have hp1 : '-' ∉ p1 :=
              fun hc => hs (mem_of_mem_splitOnChar
                (hsp ▸ List.mem_cons_of_mem p0 (List.mem_cons_self p1 rtail)) hc)
            cases hint1 : pyInt p1 with
            | none => simp [hint, hint1]
            | some mv =>
              have hmn : (0 : ℚ) ≤ (mv : ℚ) := by
                exact_mod_cast pyInt_nonneg hp1 hint1
              simp only [hint, hint1]
              exact add_nonneg hhn (div_nonneg hmn (by norm_num))
  refine ⟨hparse, ?_⟩
  intro sources hsrc p hp
  unfold load_time_logs at hp
  have hp2 : p ∈ groupSum (combinedRows sources) :=
    (List.perm_insertionSort (fun a b => b.2 ≤ a.2)
      (groupSum (combinedRows sources))).mem_iff.mp hp
  unfold groupSum at hp2
  rw [List.mem_map] at hp2
  obtain ⟨k, _, hpk⟩ := hp2
  rw [← hpk]
  apply List.sum_nonneg
  intro x hx
  rw [List.mem_map] at hx
  obtain ⟨row, hrow, rfl⟩ := hx
  have hrow2 : row ∈ combinedRows sources := List.mem_of_mem_filter hrow
  unfold combinedRows at hrow2
  rw [List.mem_flatten] at hrow2
  obtain ⟨l, hl, hrl⟩ := hrow2
  rw [List.mem_map] at hl
  obtain ⟨src, hsrcmem, rfl⟩ := hl
  rw [List.mem_map] at hrl
  obtain ⟨r0, hr0, rfl⟩ := hrl
  exact hparse r0.total_time (hsrc src hsrcmem r0 hr0)

/-- Closed instance for C4 amended: a concrete minus-free duration cell parses
non-negatively, and a one-row time-log source aggregates non-negatively. -/
theorem C4_amended_witness :
    0 ≤ parse_time_to_hours (str "2:30") ∧
    ∀ p ∈ load_time_logs [[⟨str "W", str "2:30"⟩]], 0 ≤ p.2 := by
  constructor
  · exact C4_amended_nonneg_without_minus.1 (str "2:30") (by decide)
  · exact C4_amended_nonneg_without_minus.2 [[⟨str "W", str "2:30"⟩]] (by decide)

/-- Closed instance for C1: the negative-duration and 800-hour outliers of a
concrete task are suppressed to no-value. -/
theorem C1_sanity_filter_witness :
    ∃ t t0,
      (calculate_cycle_times [mkTask [] [] (some 0) none (some (0 - 3600))])[0]? = some t ∧
      ([mkTask [] [] (some 0) none (some (0 - 3600))] : List TaskRow)[0]? = some t0 ∧
      t.hours_total_cycle = none := by
  obtain ⟨t, ht, hnone⟩ := C1_sanity_filter.2.1 0
  obtain ⟨t0, h0, _, _, _⟩ := C1_sanity_filter.1 _ 0 t ht
  exact ⟨t, t0, ht, h0, hnone⟩

theorem mem_dedupFirst {α : Type} [DecidableEq α] (a : α) :
    ∀ (l : List α), a ∈ dedupFirst l ↔ a ∈ l
  | [] => by simp [dedupFirst]
  | b :: rest => by
    rw [dedupFirst]
    by_cases hab : a = b
    · subst hab; simp
    · simp only [List.mem_cons, hab, false_or]
      rw [mem_dedupFirst a (rest.filter (fun x => x != b))]
      simp [List.mem_filter, hab]
termination_by l => l.length
decreasing_by
  simp only [List.length_cons]
  exact Nat.lt_succ_of_le (List.length_filter_le _ rest)

theorem dedupFirst_nodup {α : Type} [DecidableEq α] :
    ∀ (l : List α), (dedupFirst l).Nodup
  | [] => by simp [dedupFirst]
  | b :: rest => by
    rw [dedupFirst]
    refine List.nodup_cons.mpr ⟨?_, dedupFirst_nodup _⟩
    intro hmem
    rw [mem_dedupFirst] at hmem
    rcases List.mem_filter.mp hmem with ⟨_, hb⟩
    simp at hb
termination_by l => l.length
decreasing_by
  simp only [List.length_cons]
  exact Nat.lt_succ_of_le (List.length_filter_le _ rest)

theorem sum_filter_split (rows : List (Str × ℚ)) (p : Str × ℚ → Bool) :
    ((rows.filter p).map Prod.snd).sum
      + ((rows.filter (fun r => !(p r))).map Prod.snd).sum
      = (rows.map Prod.snd).sum := by
  induction rows with
  | nil => simp
  | cons r rs ih =>
    cases h : p r
    · simp only [List.filter_cons, h, Bool.not_false, if_true, if_false,
        List.map_cons, List.sum_cons, Bool.false_eq_true]
      rw [← ih]; ring
    · simp only [List.filter_cons, h, Bool.not_true, if_true, if_false,
        List.map_cons, List.sum_cons, Bool.false_eq_true]
      rw [← ih]; ring

theorem sum_groups (ks : List Str) (rows : List (Str × ℚ))
    (hnd : ks.Nodup) (hcov : ∀ r ∈ rows, r.1 ∈ ks) :
    (ks.map (fun k => ((rows.filter (fun r => r.1 == k)).map Prod.snd).sum)).sum
      = (rows.map Prod.snd).sum := by
  induction ks generalizing rows with
  | nil =>
    have hrows : rows = [] := by
      cases rows with
      | nil => rfl
      | cons r rs => exact absurd (hcov r (List.mem_cons_self r rs)) (List.not_mem_nil _)
    subst hrows; rfl
  | cons k ks ih =>
    obtain ⟨hknot, hndtail⟩ := List.nodup_cons.mp hnd
    rw [List.map_cons, List.sum_cons, ← sum_filter_split rows (fun r => r.1 == k)]
    congr 1
    have hng : ∀ k2 ∈ ks, rows.filter (fun r => r.1 == k2)
        = (rows.filter (fun r => !(r.1 == k))).filter (fun r => r.1 == k2) := by
      intro k2 hk2
      rw [List.filter_filter]
      apply List.filter_congr
      intro r _
      cases hr : (r.1 == k2)
      · simp
      · have hne : k2 ≠ k := fun he => hknot (he ▸ hk2)
        have hrk : r.1 = k2 := by simpa using hr
        have : (r.1 == k) = false := by
          simp [hrk, hne]
        simp [this]
    rw [List.map_congr_left (fun k2 hk2 => by rw [hng k2 hk2])]
    apply ih
    · exact hndtail
    · intro r hr
      obtain ⟨hrmem, hrk⟩ := List.mem_filter.mp hr
      rcases List.mem_cons.mp (hcov r hrmem) with he | he
      · rw [he] at hrk; simp at hrk
      · exact he

theorem total_hours_eq_spec (sources : List (List TimeRow)) :
    total_hours_for_aht sources = specAhtHours sources := by
  unfold total_hours_for_aht specAhtHours load_time_logs
  have h1 : (((List.insertionSort (fun a b => b.2 ≤ a.2)
        (groupSum (combinedRows sources))).filter
        (fun r => decide (r.1 ∉ EXCLUDED_FROM_AHT))).map Prod.snd).sum
      = (((groupSum (combinedRows sources)).filter
          (fun r => decide (r.1 ∉ EXCLUDED_FROM_AHT))).map Prod.snd).sum :=
    List.Perm.sum_eq (List.Perm.map _ (List.Perm.filter _
      (List.perm_insertionSort (fun a b => b.2 ≤ a.2) (groupSum (combinedRows sources)))))
  rw [h1]
  unfold groupSum
  rw [List.filter_map, List.map_map]
  have h2 : ∀ k2 ∈ (dedupFirst ((combinedRows sources).map Prod.fst)).filter
      ((fun r => decide (r.1 ∉ EXCLUDED_FROM_AHT)) ∘
        (fun k => (k, (((combinedRows sources).filter (fun r => r.1 == k)).map Prod.snd).sum))),
      (Prod.snd ∘ (fun k => (k, (((combinedRows sources).filter
          (fun r => r.1 == k)).map Prod.snd).sum))) k2
        = (fun k => ((((combinedRows sources).filter
            (fun r => decide (r.1 ∉ EXCLUDED_FROM_AHT))).filter
            (fun r => r.1 == k)).map Prod.snd).sum) k2 := by
    intro k2 hk2
    obtain ⟨_, hpred⟩ := List.mem_filter.mp hk2
    simp only [Function.comp_apply] at hpred ⊢
    congr 1
    rw [List.filter_filter]
    congr 1
    apply List.filter_congr
    intro r _
    cases hr : (r.1 == k2)
    · simp
    · have hrk : r.1 = k2 := by simpa using hr
      simp only [hrk, hpred, Bool.true_and]
  rw [List.map_congr_left h2]
  apply sum_groups
  · exact List.Nodup.filter _ (dedupFirst_nodup _)
  · intro r hr
    obtain ⟨hrmem, hpred⟩ := List.mem_filter.mp hr
    apply List.mem_filter.mpr
    refine ⟨(mem_dedupFirst _ _).mpr (List.mem_map_of_mem Prod.fst hrmem), ?_⟩
    simpa using hpred

theorem foldl_union_toFinset (tasks : List TaskRow) (s : Finset Str) :
    tasks.foldl (fun s t => s ∪ t.reviewer_emails.toFinset) s
      = s ∪ ((tasks.map TaskRow.reviewer_emails).flatten).toFinset := by
  induction tasks generalizing s with
  | nil => simp
  | cons t ts ih =>
    simp only [List.foldl_cons, List.map_cons, List.flatten_cons, List.toFinset_append]
    rw [ih, Finset.union_assoc]

theorem totalUniqueReviews_eq_spec (tasks : List TaskRow) :
    totalUniqueReviews tasks = specDistinctReviewerCount tasks := by
  unfold totalUniqueReviews allReviewerEmails specDistinctReviewerCount
  rw [foldl_union_toFinset tasks ∅]
  simp [List.card_toFinset]

/-- C9: each global AHT figure equals the sum of logged hours over all
non-excluded workers divided by, respectively, the written-task count (status
in Ready for Review / Revising / Approved / Merged), the number of distinct
reviewer emails across all tasks, and the merged-task count; a zero
denominator yields no-value. -/
theorem C9_global_aht (sources : List (List TimeRow)) (tasks : List TaskRow) :
    writer_aht_overall sources tasks
      = (if 0 < writtenCount tasks then
          some (specAhtHours sources / (writtenCount tasks : ℚ)) else none) ∧
    reviewer_aht_overall sources tasks
      = (if 0 < specDistinctReviewerCount tasks then
          some (specAhtHours sources / (specDistinctReviewerCount tasks : ℚ)) else none) ∧
    overall_aht sources tasks
      = (if 0 < mergedCount tasks then
          some (specAhtHours sources / (mergedCount tasks : ℚ)) else none) := by
  refine ⟨?_, ?_, ?_⟩
  · unfold writer_aht_overall
    rw [total_hours_eq_spec]
  · unfold reviewer_aht_overall
    rw [total_hours_eq_spec, totalUniqueReviews_eq_spec]
  · unfold overall_aht
    rw [total_hours_eq_spec]

theorem argminClaimed_none_iff (l : List (Nat × Option ℚ)) :
    argminClaimed l = none ↔ ∀ p ∈ l, p.2 = none := by
  induction l with
  | nil => simp [argminClaimed]
  | cons q rest ih =>
    obtain ⟨i, v⟩ := q
    cases v with
    | none =>
      rw [argminClaimed]
      constructor
      · intro h p hp
        rcases List.mem_cons.mp hp with rfl | hp
        · rfl
        · exact ih.mp h p hp
      · intro h
        exact ih.mpr (fun p hp => h p (List.mem_cons_of_mem _ hp))
    | some v =>
      rw [argminClaimed]
      have hne : (match argminClaimed rest with
          | none => some (i, v)
          | some (j, w) => if v ≤ w then some (i, v) else some (j, w)) ≠ none := by
        cases hr : argminClaimed rest with
        | none => simp
        | some q2 =>
          obtain ⟨j, w⟩ := q2
          by_cases hvw : v ≤ w <;> simp [hvw]
      constructor
      · intro h
        exact absurd h hne
      · intro h
        exact absurd (h (i, some v) (List.mem_cons_self _ _)) (by simp)

theorem argminClaimed_some (l : List (Nat × Option ℚ)) :
    ∀ (i : Nat) (v : ℚ), argminClaimed l = some (i, v) →
      (i, some v) ∈ l ∧ ∀ p ∈ l, ∀ u, p.2 = some u → v ≤ u := by
  induction l with
  | nil => intro i v h; simp [argminClaimed] at h
  | cons q rest ih =>
    intro i v h
    obtain ⟨j, w⟩ := q
    cases w with
    | none =>
      rw [argminClaimed] at h
      obtain ⟨hmem, hmin⟩ := ih i v h
      refine ⟨List.mem_cons_of_mem _ hmem, ?_⟩
      intro p hp u hu
      rcases List.mem_cons.mp hp with rfl | hp
      · exact absurd hu (by simp)
      · exact hmin p hp u hu
    | some w =>
      cases hrest : argminClaimed rest with
      | none =>
        simp only [argminClaimed, hrest] at h
        injection h with h2
        rw [Prod.mk.injEq] at h2
        obtain ⟨rfl, rfl⟩ := h2
        refine ⟨List.mem_cons_self _ _, ?_⟩
        intro p hp u hu
        rcases List.mem_cons.mp hp with rfl | hp
        · injection hu with hu2
          exact le_of_eq hu2
        · have hpnone : p.2 = none := (argminClaimed_none_iff rest).mp hrest p hp
          rw [hpnone] at hu
          exact absurd hu (by simp)
      | some q2 =>
        obtain ⟨j2, w2⟩ := q2
        obtain ⟨hmem2, hmin2⟩ := ih j2 w2 hrest
        simp only [argminClaimed, hrest] at h
        split at h <;> rename_i hle
        · injection h with h2
          rw [Prod.mk.injEq] at h2
          obtain ⟨rfl, rfl⟩ := h2
          refine ⟨List.mem_cons_self _ _, ?_⟩
          intro p hp u hu
          rcases List.mem_cons.mp hp with rfl | hp
          · injection hu with hu2
            exact le_of_eq hu2
          · exact le_trans hle (hmin2 p hp u hu)
        · injection h with h2
          rw [Prod.mk.injEq] at h2
          obtain ⟨rfl, rfl⟩ := h2
          refine ⟨List.mem_cons_of_mem _ hmem2, ?_⟩
          intro p hp u hu
          rcases List.mem_cons.mp hp with rfl | hp
          · injection hu with hu2
            exact le_trans (le_of_not_le hle) (le_of_eq hu2)
          · exact hmin2 p hp u hu

theorem mem_claimedRows (a : Str) :
    ∀ (ts : List TaskRow) (k i : Nat) (w : Option ℚ),
      (i, w) ∈ claimedRows k ts a ↔
        ∃ m t, i = k + m ∧ ts[m]? = some t ∧ t.expert_name = a ∧ t.time_claimed = w
  | [], k, i, w => by
    simp [claimedRows]
  | t :: rest, k, i, w => by
    rw [claimedRows]
    by_cases hname : t.expert_name = a
    · rw [if_pos hname]
      constructor
      · intro hp
        rcases List.mem_cons.mp hp with heq | hp
        · obtain ⟨rfl, rfl⟩ : i = k ∧ w = t.time_claimed := by
            have h1 := congrArg Prod.fst heq
            have h2 := congrArg Prod.snd heq
            exact ⟨h1, h2⟩
          exact ⟨0, t, by omega, by simp, hname, rfl⟩
        · obtain ⟨m, t2, him, hm, hn2, hc2⟩ := (mem_claimedRows a rest (k + 1) i w).mp hp
          exact ⟨m + 1, t2, by omega, by simpa using hm, hn2, hc2⟩
      · rintro ⟨m, t2, rfl, hm, hn2, hc2⟩
        cases m with
        | zero =>
          simp only [List.getElem?_cons_zero, Option.some_inj] at hm
          subst hm
          subst hc2
          have : k + 0 = k := by omega
          rw [this]
          exact List.mem_cons_self _ _
        | succ m =>
          apply List.mem_cons_of_mem
          apply (mem_claimedRows a rest (k + 1) (k + (m + 1)) w).mpr
          exact ⟨m, t2, by omega, by simpa using hm, hn2, hc2⟩
    · rw [if_neg hname]
      constructor
      · intro hp
        obtain ⟨m, t2, him, hm, hn2, hc2⟩ := (mem_claimedRows a rest (k + 1) i w).mp hp
        exact ⟨m + 1, t2, by omega, by simpa using hm, hn2, hc2⟩
      · rintro ⟨m, t2, rfl, hm, hn2, hc2⟩
        cases m with
        | zero =>
          simp only [List.getElem?_cons_zero, Option.some_inj] at hm
          subst hm
          exact absurd hn2 hname
        | succ m =>
          apply (mem_claimedRows a rest (k + 1) (k + (m + 1)) w).mpr
          exact ⟨m, t2, by omega, by simpa using hm, hn2, hc2⟩

theorem firstIdx_spec_some (ts : List TaskRow) (a : Str) (i : Nat)
    (h : firstIdx ts a = some i) :
    ∃ t v, ts[i]? = some t ∧ t.expert_name = a ∧ t.time_claimed = some v ∧
      ∀ (j : Nat) (u : TaskRow) (x : ℚ),
        ts[j]? = some u → u.expert_name = a → u.time_claimed = some x → v ≤ x := by
  unfold firstIdx at h
  rcases Option.map_eq_some'.mp h with ⟨⟨i2, v⟩, hargmin, hfst⟩
  obtain ⟨hmem, hmin⟩ := argminClaimed_some _ _ _ hargmin
  obtain ⟨m, t, him, hts, hname, hcl⟩ := (mem_claimedRows a ts 0 i2 (some v)).mp hmem
  have hmi : m = i := by
    simp only at hfst
    omega
  subst hmi
  refine ⟨t, v, hts, hname, hcl, ?_⟩
  intro j u x hj hn hx
  have hjmem : (j, u.time_claimed) ∈ claimedRows 0 ts a :=
    (mem_claimedRows a ts 0 j u.time_claimed).mpr ⟨j, u, by omega, hj, hn, rfl⟩
  exact hmin _ hjmem x hx

theorem firstIdx_spec_none (ts : List TaskRow) (a : Str)
    (h : firstIdx ts a = none) :
    ∀ (j : Nat) (u : TaskRow),
      ts[j]? = some u → u.expert_name = a → u.time_claimed = none := by
  unfold firstIdx at h
  rw [Option.map_eq_none'] at h
  rw [argminClaimed_none_iff] at h
  intro j u hj hn
  exact h (j, u.time_claimed)
    ((mem_claimedRows a ts 0 j u.time_claimed).mpr ⟨j, u, by omega, hj, hn, rfl⟩)

theorem claimedRows_map (f : TaskRow → TaskRow)
    (hf : ∀ t, (f t).expert_name = t.expert_name ∧ (f t).time_claimed = t.time_claimed) :
    ∀ (ts : List TaskRow) (k : Nat) (a : Str),
      claimedRows k (ts.map f) a = claimedRows k ts a
  | [], _, _ => rfl
  | t :: rest, k, a => by
    rw [List.map_cons, claimedRows, claimedRows, (hf t).1, (hf t).2,
      claimedRows_map f hf rest (k + 1) a]

theorem firstIdx_base (ts : List TaskRow) (a : Str) :
    firstIdx (clearFlags (ts.map computeDurations)) a = firstIdx ts a := by
  unfold firstIdx clearFlags
  rw [List.map_map]
  have hf : ∀ t : TaskRow,
      (((fun u : TaskRow => { u with is_first_task := false }) ∘ computeDurations) t).expert_name
        = t.expert_name ∧
      (((fun u : TaskRow => { u with is_first_task := false }) ∘ computeDurations) t).time_claimed
        = t.time_claimed :=
    fun t => ⟨rfl, rfl⟩
  rw [claimedRows_map ((fun u : TaskRow => { u with is_first_task := false }) ∘ computeDurations) hf]

theorem calc_flag_char (ts : List TaskRow) (j : Nat) (t0 : TaskRow)
    (h0 : ts[j]? = some t0) :
    ∃ u, (calculate_cycle_times ts)[j]? = some u ∧
      u.expert_name = t0.expert_name ∧
      u.time_claimed = t0.time_claimed ∧
      u.hours_total_cycle = (computeDurations t0).hours_total_cycle ∧
      (u.is_first_task = true ↔ ∃ b, firstIdx ts b = some j) := by
  rw [calculate_cycle_times_getElem?, clearFlags_getElem?, List.getElem?_map, h0]
  simp only [Option.map_some']
  refine ⟨_, rfl, rfl, rfl, rfl, ?_⟩
  simp only [orFlag, Bool.false_or]
  rw [List.any_eq_true]
  constructor
  · rintro ⟨b, hbmem, hbeq⟩
    refine ⟨b, ?_⟩
    rw [← firstIdx_base ts b]
    exact eq_of_beq hbeq
  · rintro ⟨b, hfb⟩
    obtain ⟨t1, v1, ht1, hn1, _, _⟩ := firstIdx_spec_some ts b j hfb
    refine ⟨b, ?_, ?_⟩
    · apply (mem_dedupFirst _ _).mpr
      rw [List.mem_map]
      refine ⟨{ computeDurations t1 with is_first_task := false }, ?_, hn1⟩
      apply List.getElem?_mem (n := j)
      rw [clearFlags_getElem?, List.getElem?_map, ht1]
      rfl
    · rw [firstIdx_base ts b, hfb]
      simp

theorem calc_getElem_none (ts : List TaskRow) (j : Nat) (h0 : ts[j]? = none) :
    (calculate_cycle_times ts)[j]? = none := by
  rw [calculate_cycle_times_getElem?, clearFlags_getElem?, List.getElem?_map, h0]
  rfl

theorem firstFlag_spec (ts : List TaskRow) (a : Str) :
    ((∀ (j : Nat) (u : TaskRow), ts[j]? = some u → u.expert_name = a →
        u.time_claimed = none) →
      ∀ (j : Nat) (u : TaskRow), (calculate_cycle_times ts)[j]? = some u →
        u.expert_name = a → u.is_first_task = false) ∧
    ((∃ (j : Nat) (u : TaskRow), ts[j]? = some u ∧ u.expert_name = a ∧
        u.time_claimed ≠ none) →
      ∃ (j : Nat) (u : TaskRow) (v : ℚ),
        (calculate_cycle_times ts)[j]? = some u ∧ u.expert_name = a ∧
        u.is_first_task = true ∧ u.time_claimed = some v ∧
        (∀ (k : Nat) (w : TaskRow) (x : ℚ),
          ts[k]? = some w → w.expert_name = a → w.time_claimed = some x → v ≤ x) ∧
        (∀ (k : Nat) (w : TaskRow), (calculate_cycle_times ts)[k]? = some w →
          w.expert_name = a → w.is_first_task = true → k = j)) := by
  have hts_of_res : ∀ (j : Nat) (u : TaskRow), (calculate_cycle_times ts)[j]? = some u →
      ∃ t0, ts[j]? = some t0 := by
    intro j u hres
    cases h0 : ts[j]? with
    | none => rw [calc_getElem_none ts j h0] at hres; exact absurd hres (by simp)
    | some t0 => exact ⟨t0, rfl⟩
  have hflag_to_idx : ∀ (k : Nat) (w : TaskRow), (calculate_cycle_times ts)[k]? = some w →
      w.expert_name = a → w.is_first_task = true → firstIdx ts a = some k := by
    intro k w hresk hnamew hflagw
    obtain ⟨t0k, h0k⟩ := hts_of_res k w hresk
    obtain ⟨u2, hres2, hname2, _, _, hiff2⟩ := calc_flag_char ts k t0k h0k
    have hu2w : u2 = w := by
      rw [hres2] at hresk
      exact Option.some_inj.mp hresk
    subst hu2w
    obtain ⟨b, hfb⟩ := hiff2.mp hflagw
    obtain ⟨t1, v1, ht1, hn1, _, _⟩ := firstIdx_spec_some ts b k hfb
    have ht10 : t1 = t0k := by
      rw [h0k] at ht1
      exact (Option.some_inj.mp ht1).symm
    subst ht10
    have hba : b = a := by
      rw [← hn1, ← hname2, hnamew]
    rw [← hba]
    exact hfb
  constructor
  · intro hnone j u hres hname
    obtain ⟨t0, h0⟩ := hts_of_res j u hres
    cases hfl : u.is_first_task with
    | false => rfl
    | true =>
      have hfa : firstIdx ts a = some j := hflag_to_idx j u hres hname hfl
      obtain ⟨t1, v1, ht1, hn1, hc1, _⟩ := firstIdx_spec_some ts a j hfa
      exact absurd hc1 (by rw [hnone j t1 ht1 hn1]; simp)
  · rintro ⟨j0, u0, hj0, hname0, hcl0⟩
    cases hf : firstIdx ts a with
    | none => exact absurd (firstIdx_spec_none ts a hf j0 u0 hj0 hname0) hcl0
    | some i =>
      obtain ⟨t, v, ht, hn, hc, hmin⟩ := firstIdx_spec_some ts a i hf
      obtain ⟨u, hres, hnameu, hclu, _, hiff⟩ := calc_flag_char ts i t ht
      refine ⟨i, u, v, hres, by rw [hnameu, hn], hiff.mpr ⟨a, hf⟩, by rw [hclu, hc], hmin, ?_⟩
      intro k w hresk hnamew hflagw
      have := hflag_to_idx k w hresk hnamew hflagw
      rw [hf] at this
      exact (Option.some_inj.mp this).symm

/-- C2: for every author, `is_first_task` is set on at most one task: when the
author's group has at least one known claimed timestamp, exactly the task with
the minimum claimed timestamp is flagged (first row winning ties); all of the
author's other tasks, and every task of an author with no known claimed
timestamp, keep the flag false. -/
theorem C2_first_task_flag (ts : List TaskRow) (a : Str) :
    ((∀ (j : Nat) (u : TaskRow), ts[j]? = some u → u.expert_name = a →
        u.time_claimed = none) →
      ∀ (j : Nat) (u : TaskRow), (calculate_cycle_times ts)[j]? = some u →
        u.expert_name = a → u.is_first_task = false) ∧
    ((∃ (j : Nat) (u : TaskRow), ts[j]? = some u ∧ u.expert_name = a ∧
        u.time_claimed ≠ none) →
      ∃ (j : Nat) (u : TaskRow) (v : ℚ),
        (calculate_cycle_times ts)[j]? = some u ∧ u.expert_name = a ∧
        u.is_first_task = true ∧ u.time_claimed = some v ∧
        (∀ (k : Nat) (w : TaskRow) (x : ℚ),
          ts[k]? = some w → w.expert_name = a → w.time_claimed = some x → v ≤ x) ∧
        (∀ (k : Nat) (w : TaskRow), (calculate_cycle_times ts)[k]? = some w →
          w.expert_name = a → w.is_first_task = true → k = j)) :=
  firstFlag_spec ts a

/-- Closed instance for C2: a worker with two claimed tasks has exactly one
flagged first task. -/
theorem C2_first_task_flag_witness :
    ∃ (j : Nat) (u : TaskRow) (v : ℚ),
      (calculate_cycle_times
        [mkTask (str "W") [] (some 10) none none,
         mkTask (str "W") [] (some 5) none none])[j]? = some u ∧
      u.expert_name = str "W" ∧ u.is_first_task = true ∧ u.time_claimed = some v ∧
      (∀ (k : Nat) (w : TaskRow) (x : ℚ),
        ([mkTask (str "W") [] (some 10) none none,
          mkTask (str "W") [] (some 5) none none] : List TaskRow)[k]? = some w →
        w.expert_name = str "W" → w.time_claimed = some x → v ≤ x) ∧
      (∀ (k : Nat) (w : TaskRow),
        (calculate_cycle_times
          [mkTask (str "W") [] (some 10) none none,
           mkTask (str "W") [] (some 5) none none])[k]? = some w →
        w.expert_name = str "W" → w.is_first_task = true → k = j) :=
  (C2_first_task_flag
    [mkTask (str "W") [] (some 10) none none,
     mkTask (str "W") [] (some 5) none none] (str "W")).2
    ⟨0, mkTask (str "W") [] (some 10) none none, by simp, rfl, by simp [mkTask]⟩

/-- C10: records with an absent author relation are ingested with the empty
string as author name, and first-task flagging treats that empty name as an
ordinary author group: if at least one authorless task has a known claimed
timestamp, exactly one authorless task (the earliest claimed) is flagged. -/
theorem C10_authorless_first_task (rs : List RawRecord) :
    (∀ (i : Nat) (r : RawRecord), rs[i]? = some r → r.expert_user = [] →
      ∃ t, (rs.map parseRecord)[i]? = some t ∧ t.expert_name = []) ∧
    ((∃ (j : Nat) (u : TaskRow), (rs.map parseRecord)[j]? = some u ∧
        u.expert_name = [] ∧ u.time_claimed ≠ none) →
      ∃ (j : Nat) (u : TaskRow) (v : ℚ),
        (calculate_cycle_times (rs.map parseRecord))[j]? = some u ∧
        u.expert_name = [] ∧ u.is_first_task = true ∧ u.time_claimed = some v ∧
        (∀ (k : Nat) (w : TaskRow) (x : ℚ),
          (rs.map parseRecord)[k]? = some w → w.expert_name = [] →
          w.time_claimed = some x → v ≤ x) ∧
        (∀ (k : Nat) (w : TaskRow),
          (calculate_cycle_times (rs.map parseRecord))[k]? = some w →
          w.expert_name = [] → w.is_first_task = true → k = j)) := by
  constructor
  · intro i r hi hempty
    refine ⟨parseRecord r, ?_, ?_⟩
    · rw [List.getElem?_map, hi]
      rfl
    · show (extractExpert r.expert_user).1 = []
      rw [hempty]
      rfl
  · exact (firstFlag_spec (rs.map parseRecord) []).2

/-- Closed instance for C10: a single authorless record with a known claim
time yields an empty-name task row that gets the first-task flag. -/
theorem C10_authorless_first_task_witness :
    (∃ t, ([mkRecord [] [] (some 7)].map parseRecord)[0]? = some t ∧
      t.expert_name = []) ∧
    ∃ (j : Nat) (u : TaskRow) (v : ℚ),
      (calculate_cycle_times ([mkRecord [] [] (some 7)].map parseRecord))[j]? = some u ∧
      u.expert_name = [] ∧ u.is_first_task = true ∧ u.time_claimed = some v := by
  constructor
  · exact (C10_authorless_first_task [mkRecord [] [] (some 7)]).1 0 (mkRecord [] [] (some 7))
      (by simp) rfl
  · obtain ⟨j, u, v, h1, h2, h3, h4, _, _⟩ :=
      (C10_authorless_first_task [mkRecord [] [] (some 7)]).2
        ⟨0, parseRecord (mkRecord [] [] (some 7)), by simp, rfl, by simp [parseRecord, mkRecord]⟩
    exact ⟨j, u, v, h1, h2, h3, h4⟩

theorem toNat_ofNat_valid (n : Nat) (h : n < 55296) : (Char.ofNat n).toNat = n := by
  have hv : n.isValidChar := Or.inl h
  rw [Char.ofNat, dif_pos hv]
  rfl

theorem isSpaceChar_toLower (c : Char) :
    isSpaceChar (Char.toLower c) = isSpaceChar c := by
  have hdef : Char.toLower c
      = if c.toNat ≥ 65 ∧ c.toNat ≤ 90 then Char.ofNat (c.toNat + 32) else c := rfl
  rw [hdef]
  split
  · rename_i h
    obtain ⟨h65, h90⟩ := h
    have h1 : (Char.ofNat (c.toNat + 32)).toNat = c.toNat + 32 :=
      toNat_ofNat_valid _ (by omega)
    have hA : isSpaceChar (Char.ofNat (c.toNat + 32)) = false := by
      simp only [isSpaceChar, h1, Bool.or_eq_false_iff, decide_eq_false_iff_not]
      omega
    have hB : isSpaceChar c = false := by
      simp only [isSpaceChar, Bool.or_eq_false_iff, decide_eq_false_iff_not]
      omega
    rw [hA, hB]
  · rfl

theorem dropWhile_head_false (p : Char → Bool) :
    ∀ (l : Str) (c : Char) (t : Str), l.dropWhile p = c :: t → p c = false
  | [], c, t, h => by simp at h
  | a :: l, c, t, h => by
    by_cases ha : p a
    · rw [List.dropWhile_cons_of_pos ha] at h
      exact dropWhile_head_false p l c t h
    · rw [List.dropWhile_cons_of_neg ha] at h
      injection h with h1 h2
      subst h1
      simpa using ha

theorem dropWhile_eq_self_of_head (p : Char → Bool) :
    ∀ (l : Str), (∀ c t, l = c :: t → p c = false) → l.dropWhile p = l
  | [], _ => rfl
  | c :: t, h => by
    have hc := h c t rfl
    rw [List.dropWhile_cons_of_neg (by simp [hc])]

theorem dropWhile_idem (p : Char → Bool) (l : Str) :
    (l.dropWhile p).dropWhile p = l.dropWhile p := by
  apply dropWhile_eq_self_of_head
  intro c t h
  exact dropWhile_head_false p l c t h

theorem trimRight_idem (s : Str) : trimRight (trimRight s) = trimRight s := by
  unfold trimRight
  rw [List.reverse_reverse, dropWhile_idem]

theorem trimRight_append (u : Str) : ∃ w, u = trimRight u ++ w := by
  refine ⟨(u.reverse.takeWhile isSpaceChar).reverse, ?_⟩
  have h : (List.takeWhile isSpaceChar u.reverse ++ List.dropWhile isSpaceChar u.reverse).reverse
      = (List.dropWhile isSpaceChar u.reverse).reverse
        ++ (List.takeWhile isSpaceChar u.reverse).reverse :=
    List.reverse_append _ _
  rw [List.takeWhile_append_dropWhile, List.reverse_reverse] at h
  exact h

theorem trimLeft_trimRight_trimLeft (s : Str) :
    trimLeft (trimRight (trimLeft s)) = trimRight (trimLeft s) := by
  apply dropWhile_eq_self_of_head
  intro c t h
  obtain ⟨w, hw⟩ := trimRight_append (trimLeft s)
  rw [h] at hw
  exact dropWhile_head_false _ s c (t ++ w) (by simpa using hw)

theorem pyStrip_idem (s : Str) : pyStrip (pyStrip s) = pyStrip s := by
  unfold pyStrip
  rw [trimLeft_trimRight_trimLeft, trimRight_idem]

theorem trimLeft_pyLower (s : Str) : trimLeft (pyLower s) = pyLower (trimLeft s) := by
  unfold trimLeft pyLower
  have hpf : (isSpaceChar ∘ Char.toLower) = isSpaceChar := funext isSpaceChar_toLower
  rw [List.dropWhile_map, hpf]

theorem trimRight_pyLower (s : Str) : trimRight (pyLower s) = pyLower (trimRight s) := by
  unfold trimRight pyLower
  have hpf : (isSpaceChar ∘ Char.toLower) = isSpaceChar := funext isSpaceChar_toLower
  rw [← List.map_reverse, List.dropWhile_map, hpf, List.map_reverse]

theorem pyStrip_pyLower (s : Str) : pyStrip (pyLower s) = pyLower (pyStrip s) := by
  unfold pyStrip
  rw [trimLeft_pyLower, trimRight_pyLower]

theorem normalize_canonical (p : Str × Str) (hp : p ∈ EXPERT_ALIASES) :
    normalize_expert_name p.2 = p.2 := by
  have h9 : p = (str "Totrakool Khongsap", str "Ta Khongsap")
      ∨ p = (str "totrakool khongsap", str "Ta Khongsap")
      ∨ p = (str "József Vass", str "Jozsef Vass")
      ∨ p = (str "jozsef vass", str "Jozsef Vass")
      ∨ p = (str "józsef vass", str "Jozsef Vass")
      ∨ p = (str "Behzad Ansarinejad - Physics", str "Behzad")
      ∨ p = (str "Behzad Ansarinejad", str "Behzad")
      ∨ p = (str "behzad ansarinejad - physics", str "Behzad")
      ∨ p = (str "behzad ansarinejad", str "Behzad") := by
    simpa [EXPERT_ALIASES] using hp
  rcases h9 with rfl | rfl | rfl | rfl | rfl | rfl | rfl | rfl | rfl <;> decide

/-- C7: name normalization is idempotent with respect to the alias table:
`normalize_expert_name (normalize_expert_name x) = normalize_expert_name x`
for every string `x`, aliases and arbitrary strings alike. -/
theorem C7_normalize_idempotent (x : Str) :
    normalize_expert_name (normalize_expert_name x) = normalize_expert_name x := by
  by_cases hx : x = []
  · subst hx
    rfl
  · cases hex : EXPERT_ALIASES.find? (fun p => p.1 == x) with
    | some p =>
      have hx1 : normalize_expert_name x = p.2 := by
        unfold normalize_expert_name
        rw [if_neg hx, hex]
        rfl
      rw [hx1]
      exact normalize_canonical p (List.mem_of_find?_eq_some hex)
    | none =>
      cases hci : EXPERT_ALIASES.find? (fun p => pyLower p.1 == pyStrip (pyLower x)) with
      | some p =>
        have hx1 : normalize_expert_name x = p.2 := by
          unfold normalize_expert_name
          rw [if_neg hx, hex, hci]
          rfl
        rw [hx1]
        exact normalize_canonical p (List.mem_of_find?_eq_some hci)
      | none =>
        have hx1 : normalize_expert_name x = pyStrip x := by
          unfold normalize_expert_name
          rw [if_neg hx, hex, hci]
          rfl
        rw [hx1]
        by_cases hy : pyStrip x = []
        · rw [hy]
          rfl
        · have hciAll := List.find?_eq_none.mp hci
          have hexY : EXPERT_ALIASES.find? (fun q => q.1 == pyStrip x) = none := by
            rw [List.find?_eq_none]
            intro q hq hbeq
            have hq1 : q.1 = pyStrip x := by simpa using hbeq
            apply hciAll q hq
            rw [hq1, ← pyStrip_pyLower]
            simp
          have hciY : EXPERT_ALIASES.find?
              (fun q => pyLower q.1 == pyStrip (pyLower (pyStrip x))) = none := by
            have hkey : pyStrip (pyLower (pyStrip x)) = pyStrip (pyLower x) := by
              rw [pyStrip_pyLower, pyStrip_idem, ← pyStrip_pyLower]
            rw [hkey]
            exact hci
          unfold normalize_expert_name
          rw [if_neg hy, hexY, hciY]
          exact pyStrip_idem x
